import Mathlib

/-!
Verification of the transcript-acquisition backend (`src/backend/utils.py`).

The Python source is shallowly embedded:

* `clean_transcript` is a chain of four `re.sub` calls followed by
  `str.strip`.  Each regex used by the source matches at least one
  character, never uses capture groups and is replaced by a constant
  string, so `re.sub` semantics reduce to a left-to-right scan that, at
  each position, either removes/replaces the leftmost match and resumes
  after it, or copies one character (`scanSub` below, with one
  front-matcher per regex).
* `get_transcript` performs external calls (yt-dlp metadata query,
  subtitle download into a temporary directory, direct HTTP fetches of
  caption-track URLs).  Those are abstracted into an `Env` record that
  fixes the outcome of every external call; the control flow around them
  is translated literally.  Python exceptions are values of `Exc`:
  `Exc.client` is a `ValueError` (the code's user-facing error class) and
  `Exc.other` is any other exception type.
* `get_summary` likewise takes a `SummaryEnv` describing the configured
  API key and the chat-completion endpoint's response.
-/

/-! ## CaptionNormalizer (`clean_transcript`) -/

/-- Python `str.strip` whitespace set (ASCII part). -/
def isSpace (c : Char) : Bool :=
  c == ' ' || c == '\t' || c == '\n' || c == '\r' || c == '\x0b' || c == '\x0c'

/-- Python `str.strip`: drop leading and trailing whitespace. -/
def pyStrip (l : List Char) : List Char :=
  (((l.dropWhile isSpace).reverse.dropWhile isSpace)).reverse

/-- String-level `str.strip`. -/
def pyStripStr (s : String) : String := String.mk (pyStrip s.data)

/-- Fuel-driven worker for `scanSub`; the fuel only forces structural
recursion and is irrelevant as soon as it is at least the list length. -/
def scanSubGo (m : List Char → Option Nat) (repl : List Char) : Nat → List Char → List Char
  | _, [] => []
  | 0, l => l
  | fuel + 1, c :: cs =>
    match m (c :: cs) with
    | some n => repl ++ scanSubGo m repl fuel (cs.drop n)
    | none => c :: scanSubGo m repl fuel cs

/-- Generic `re.sub(pattern, repl, s)` for a pattern without capture groups:
`m l` returns `some n` when the pattern matches a prefix of `l` of length
`n + 1` (every pattern in the source consumes at least one character), and
`none` when it does not match at the start of `l`.  The scan replaces the
leftmost match, resumes after it, and copies unmatched characters. -/
def scanSub (m : List Char → Option Nat) (repl : List Char) (l : List Char) : List Char :=
  scanSubGo m repl l.length l

theorem scanSubGo_fuel (m : List Char → Option Nat) (repl : List Char) :
    ∀ (f₁ : Nat), ∀ (f₂ : Nat) (l : List Char), l.length ≤ f₁ → l.length ≤ f₂ →
      scanSubGo m repl f₁ l = scanSubGo m repl f₂ l := by
  intro f₁
  induction f₁ with
  | zero =>
    intro f₂ l h₁ _
    have hl : l = [] := List.eq_nil_of_length_eq_zero (Nat.le_zero.mp h₁)
    subst hl
    cases f₂ <;> rfl
  | succ f ih =>
    intro f₂ l h₁ h₂
    cases l with
    | nil => cases f₂ <;> rfl
    | cons c cs =>
      cases f₂ with
      | zero => exact absurd h₂ (by simp)
      | succ g =>
        simp only [scanSubGo]
        have hcs : cs.length ≤ f := by simpa using h₁
        have hcs' : cs.length ≤ g := by simpa using h₂
        cases hm : m (c :: cs) with
        | some n =>
          have hd : (cs.drop n).length ≤ cs.length := by
            simp only [List.length_drop]; omega
          show repl ++ scanSubGo m repl f (cs.drop n) = repl ++ scanSubGo m repl g (cs.drop n)
          rw [ih g (cs.drop n) (le_trans hd hcs) (le_trans hd hcs')]
        | none =>
          show c :: scanSubGo m repl f cs = c :: scanSubGo m repl g cs
          rw [ih g cs hcs hcs']

theorem scanSub_nil (m : List Char → Option Nat) (repl : List Char) :
    scanSub m repl [] = [] := rfl

theorem scanSub_cons_some (m : List Char → Option Nat) (repl : List Char)
    (c : Char) (cs : List Char) (n : Nat) (h : m (c :: cs) = some n) :
    scanSub m repl (c :: cs) = repl ++ scanSub m repl (cs.drop n) := by
  show scanSubGo m repl (c :: cs).length (c :: cs) = _
  simp only [List.length_cons, scanSubGo, h]
  rw [scanSubGo_fuel m repl cs.length (cs.drop n).length (cs.drop n)
    (by simp only [List.length_drop]; omega) (le_refl _)]
  rfl

theorem scanSub_cons_none (m : List Char → Option Nat) (repl : List Char)
    (c : Char) (cs : List Char) (h : m (c :: cs) = none) :
    scanSub m repl (c :: cs) = c :: scanSub m repl cs := by
  show scanSubGo m repl (c :: cs).length (c :: cs) = _
  simp only [List.length_cons, scanSubGo, h]
  rfl

/-- Front matcher for `\d+\n` (greedy digits, then a newline): the maximal
digit run must be followed by `\n`; shorter runs are followed by a digit,
so backtracking cannot succeed. -/
def matchSeqNum : List Char → Option Nat
  | [] => none
  | c :: cs =>
    if c.isDigit then
      let k := (cs.takeWhile Char.isDigit).length
      if (cs.drop k).head? == some '\n' then some (k + 1) else none
    else none

/-- Character-class list matcher: does `l` start with characters satisfying
the classes in order? -/
def matchClasses : List (Char → Bool) → List Char → Bool
  | [], _ => true
  | _ :: _, [] => false
  | p :: ps, c :: cs => p c && matchClasses ps cs

/-- Single-character class. -/
def chEq (x : Char) : Char → Bool := fun c => c == x

/-- Character classes of `\d{2}:\d{2}:\d{2},\d{3} --> \d{2}:\d{2}:\d{2},\d{3}\n`
(30 characters). -/
def tsPat : List (Char → Bool) :=
  [Char.isDigit, Char.isDigit, chEq ':', Char.isDigit, Char.isDigit, chEq ':',
   Char.isDigit, Char.isDigit, chEq ',', Char.isDigit, Char.isDigit, Char.isDigit,
   chEq ' ', chEq '-', chEq '-', chEq '>', chEq ' ',
   Char.isDigit, Char.isDigit, chEq ':', Char.isDigit, Char.isDigit, chEq ':',
   Char.isDigit, Char.isDigit, chEq ',', Char.isDigit, Char.isDigit, Char.isDigit,
   chEq '\n']

/-- Front matcher for the SRT timestamp-range regex. -/
def matchTimestamp (l : List Char) : Option Nat :=
  if matchClasses tsPat l then some 29 else none

/-- The class `\n`. -/
def isNl : Char → Bool := fun d => d == '\n'

/-- The class `[^>]`. -/
def notGt : Char → Bool := fun d => !(d == '>')

/-- Front matcher for `\n+` (greedy newline run). -/
def matchNewlines : List Char → Option Nat
  | [] => none
  | c :: cs =>
    if c == '\n' then some ((cs.takeWhile isNl).length) else none

/-- Front matcher for `<[^>]+>`: at `<`, the maximal run of non-`>`
characters must be non-empty and followed by `>`. -/
def matchTag : List Char → Option Nat
  | [] => none
  | c :: cs =>
    if c == '<' then
      let k := (cs.takeWhile notGt).length
      if k == 0 then none
      else if (cs.drop k).head? == some '>' then some (k + 1) else none
    else none

/-- List-level body of `clean_transcript`: the four `re.sub` calls of the
source in order, then `strip`. -/
def cleanList (l : List Char) : List Char :=
  pyStrip (scanSub matchTag []
    (scanSub matchNewlines [' ']
      (scanSub matchTimestamp []
        (scanSub matchSeqNum [] l))))

/-- `clean_transcript` from `utils.py` (lines 18-26). -/
def clean_transcript (s : String) : String := String.mk (cleanList s.data)

/-- The SRT sample input of the specification's testable property. -/
def srtSample : String :=
  "1\n00:00:01,000 --> 00:00:02,000\nHello <b>world</b>\n\n2\n00:00:02,000 --> 00:00:03,000\nfoo\n"

example : clean_transcript "a\nb" = "a b" := by decide

/-! ## TranscriptAcquirer (`get_transcript`) -/

/-- A Python exception: `client` is a `ValueError` (the error class the
source uses for user-facing messages), `other` any other exception type. -/
inductive Exc where
  | client (msg : String)
  | other (msg : String)
deriving DecidableEq, Repr

/-- One entry of a caption-track list, as consumed by the source
(`sub.get('ext')`, `sub.get('url')`; `none` models a missing key). -/
structure SubEntry where
  ext : Option String
  url : Option String
deriving DecidableEq, Repr

/-- The slice of the yt-dlp info dict the source reads: the two caption
maps (association lists keyed by language tag, in dict iteration order). -/
structure Info where
  subtitles : List (String × List SubEntry)
  automatic_captions : List (String × List SubEntry)
deriving Repr

/-- Outcomes of every external call `get_transcript` performs:
`setup` is entering `yt_dlp.YoutubeDL(ydl_opts)` (line 45), `extract_info`
the metadata query (line 49, the handler only uses the exception's text),
`tempdir` entering `tempfile.TemporaryDirectory()` (line 80),
`download_result` the payload read from a downloaded `.srt` file (lines
91-104; all failures there are swallowed, so `none` covers them), and
`fetch` the direct `urllib` fetch of a caption-track URL. -/
structure Env where
  setup : Except Exc Unit
  extract_info : Except String Info
  tempdir : Except Exc Unit
  download_result : Option String
  fetch : String → Except Exc String

/-- Python `str.lower` (ASCII part), as applied to the error text. -/
def lowerStr (s : String) : String := String.mk (s.data.map Char.toLower)

/-- Python `needle in hay` on strings. -/
def containsSub (hay needle : String) : Bool :=
  needleSearch needle.data hay.data
where
  needleSearch (needle : List Char) : List Char → Bool
    | [] => needle.isEmpty
    | c :: cs => needle.isPrefixOf (c :: cs) || needleSearch needle cs

/-- Classification of a metadata-query failure by substring inspection of
the lowercased error text (`utils.py` lines 52-67); the fallback message
interpolates the original text. -/
def classifyInfoError (msg : String) : String :=
  let m := lowerStr msg
  if containsSub m "private video" then
    "This video is private and cannot be accessed."
  else if containsSub m "video unavailable" || containsSub m "unavailable" then
    "This video is no longer available."
  else if containsSub m "age-restricted" || containsSub m "age restricted" then
    "This video is age-restricted and cannot be processed."
  else if containsSub m "not available" then
    "This video is not available in your region or has been removed."
  else if containsSub m "blocked" then
    "This video is blocked and cannot be accessed."
  else
    "Could not access video: " ++ msg

/-- Python truthiness of the `transcript_text` variable (`None` and the
empty string are falsy). -/
def truthyOpt : Option String → Bool
  | none => false
  | some s => !(s == "")

/-- The inner track loop (lines 116-125 resp. 140-149): scan the entries
for the first one whose `ext` is `srt`/`vtt` and whose `url` is truthy,
and return that URL. -/
def findEligibleUrl : List SubEntry → Option String
  | [] => none
  | e :: rest =>
    if e.ext == some "srt" || e.ext == some "vtt" then
      match e.url with
      | some u => if u == "" then findEligibleUrl rest else some u
      | none => findEligibleUrl rest
    else findEligibleUrl rest

/-- One language-preference loop of the direct-URL fallback (lines 111-130
resp. 135-154).  The result is the final value of `transcript_text`
contributed by the loop: `none` when no fetch result was ever assigned, and
`some ""` when an empty payload was fetched (Python then falls through to
the next language because the empty string is falsy, but the assignment
stands).  A fetch exception skips the whole language (`continue` in the
`except` arm). -/
def tryLangs (fetch : String → Except Exc String) (m : List (String × List SubEntry)) :
    List String → Option String
  | [] => none
  | lang :: rest =>
    match List.lookup lang m with
    | none => tryLangs fetch m rest
    | some entries =>
      match findEligibleUrl entries with
      | none => tryLangs fetch m rest
      | some u =>
        match fetch u with
        | Except.error _ => tryLangs fetch m rest
        | Except.ok p =>
          if p == "" then
            match tryLangs fetch m rest with
            | none => some ""
            | some q => some q
          else some p

/-- Manual-subtitle language preference list (line 111). -/
def manualLangs : List String := ["en", "en-US", "en-GB", "en-CA"]

/-- Automatic-caption language preference list (line 135). -/
def autoLangs : List String := ["en", "en-US", "en-GB"]

/-- The value of `transcript_text` after lines 77-154: the primary
download if truthy, else the manual-subtitle fallback, else the
automatic-caption fallback (each later stage only runs while the value is
still falsy, and leaves the previous value in place when it assigns
nothing). -/
def acquirePayload (env : Env) (info : Info) : Option String :=
  let t0 := env.download_result
  let tA :=
    if truthyOpt t0 then t0
    else
      match tryLangs env.fetch info.subtitles manualLangs with
      | some q => some q
      | none => t0
  if truthyOpt tA then tA
  else
    match tryLangs env.fetch info.automatic_captions autoLangs with
    | some q => some q
    | none => tA

/-- The body of `get_transcript` inside the outer `try` (lines 29-171).
Classified user-facing failures are raised as `Exc.client` (Python
`ValueError`); exceptions of external calls that no inner handler catches
propagate unchanged. -/
def get_transcript_body (env : Env) : Except Exc String :=
  match env.setup with
  | Except.error e => Except.error e
  | Except.ok _ =>
    match env.extract_info with
    | Except.error msg => Except.error (Exc.client (classifyInfoError msg))
    | Except.ok info =>
      match env.tempdir with
      | Except.error e => Except.error e
      | Except.ok _ =>
        let t := acquirePayload env info
        if truthyOpt t then
          let cleaned := clean_transcript (t.getD "")
          if cleaned == "" || (pyStripStr cleaned).length < 10 then
            Except.error (Exc.client "Retrieved transcript is empty or too short.")
          else
            Except.ok cleaned
        else
          let available := info.subtitles.map Prod.fst ++ info.automatic_captions.map Prod.fst
          if available.isEmpty then
            Except.error (Exc.client "No captions available for this video. The video may not have subtitles.")
          else
            Except.error (Exc.client ("No English captions available. Available languages: " ++
              String.intercalate ", " available))

/-- `get_transcript` (lines 28-178): the outer boundary re-raises
`ValueError`s unchanged and wraps anything else into a `ValueError` with
the generic prefix, so the caller only ever sees a client-error message. -/
def get_transcript (env : Env) : Except String String :=
  match get_transcript_body env with
  | Except.ok t => Except.ok t
  | Except.error (Exc.client m) => Except.error m
  | Except.error (Exc.other m) => Except.error ("Could not process video: " ++ m)

/-! ## SummaryGenerator (`get_summary`) -/

/-- `get_openai_client` (lines 11-16): a missing, empty or placeholder
`OPENAI_API_KEY` raises a `ValueError`; the message string models the
constructed client otherwise. -/
def get_openai_client (api_key : Option String) : Except String Unit :=
  match api_key with
  | none =>
    Except.error "OpenAI API key not configured. Please set OPENAI_API_KEY environment variable."
  | some k =>
    if k == "" || k == "your_openai_api_key_here" then
      Except.error "OpenAI API key not configured. Please set OPENAI_API_KEY environment variable."
    else Except.ok ()

/-- The `except` arm of `get_summary` (lines 199-208): substring
classification of the error text. -/
def classifySummaryError (s : String) : String :=
  if containsSub s "OpenAI API key not configured" then
    "OpenAI API key not configured. Please set OPENAI_API_KEY environment variable."
  else if containsSub s "insufficient_quota" || containsSub (lowerStr s) "quota" then
    "OpenAI API quota exceeded. Please try again later."
  else if containsSub s "invalid_api_key" || containsSub (lowerStr s) "authentication" then
    "OpenAI API authentication failed. Please check your API key."
  else
    "Could not generate summary: " ++ s

/-- The truncation marker appended when the transcript is cut (line 187). -/
def truncMarker : String := "... [transcript truncated]"

/-- Python `t[:n]` (first `n` code points). -/
def pyTake (s : String) (n : Nat) : String := String.mk (s.data.take n)

/-- Lines 185-187: transcripts longer than 8000 characters are cut to the
first 8000 characters plus the truncation marker. -/
def truncateTranscript (t : String) : String :=
  if t.length > 8000 then pyTake t 8000 ++ truncMarker else t

/-- External state of `get_summary`: the configured API key and the
chat-completion endpoint's response as a function of the submitted
(possibly truncated) transcript. -/
structure SummaryEnv where
  api_key : Option String
  api_response : String → Except String String

/-- `get_summary` (lines 180-208): build the client, truncate, submit, and
classify any raised error text. -/
def get_summary (env : SummaryEnv) (transcript : String) : Except String String :=
  match get_openai_client env.api_key with
  | Except.error m => Except.error (classifySummaryError m)
  | Except.ok _ =>
    match env.api_response (truncateTranscript transcript) with
    | Except.ok content => Except.ok content
    | Except.error e => Except.error (classifySummaryError e)

/-! ## Helper facts about the acquisition body -/

theorem get_transcript_body_ok (env : Env) (t : String)
    (h : get_transcript_body env = Except.ok t) :
    ¬t = "" ∧ 10 ≤ (pyStripStr t).length := by
  unfold get_transcript_body at h
  cases hset : env.setup with
  | error e => rw [hset] at h; exact absurd h (by simp)
  | ok u =>
    rw [hset] at h
    cases hinfo : env.extract_info with
    | error msg => rw [hinfo] at h; exact absurd h (by simp)
    | ok info =>
      rw [hinfo] at h
      cases htd : env.tempdir with
      | error e => rw [htd] at h; exact absurd h (by simp)
      | ok u' =>
        rw [htd] at h
        simp only at h
        split at h
        · split at h
          · exact absurd h (by simp)
          · rename_i hcond
            have ht : clean_transcript ((acquirePayload env info).getD "") = t := by
              simpa using h
            rw [Bool.or_eq_true, not_or] at hcond
            refine ⟨?_, ?_⟩
            · intro he
              exact hcond.1 (by rw [ht, he]; rfl)
            · have := hcond.2
              rw [ht] at this
              simpa using Nat.le_of_not_lt (by simpa using this)
        · split at h <;> exact absurd h (by simp)

theorem get_transcript_ok_body (env : Env) (t : String)
    (h : get_transcript env = Except.ok t) : get_transcript_body env = Except.ok t := by
  unfold get_transcript at h
  cases hb : get_transcript_body env with
  | ok t' => rw [hb] at h; simpa using h
  | error e =>
    rw [hb] at h
    cases e with
    | client m => exact absurd h (by simp)
    | other m => exact absurd h (by simp)

/-! ## Claim theorems -/

/-- Claim C1: any exception raised during acquisition that is not already a
`ValueError` is caught at the outer boundary of `get_transcript` and
re-raised as a `ValueError` whose message begins with the generic
"Could not process video" text, and `get_transcript` surfaces nothing but
such client-error messages to its caller. -/
theorem get_transcript_outer_boundary (env : Env) :
    (∀ m, get_transcript_body env = Except.error (Exc.other m) →
      get_transcript env = Except.error ("Could not process video: " ++ m) ∧
      ∃ rest, "Could not process video: " ++ m = "Could not process video" ++ rest) ∧
    (∀ msg, get_transcript env = Except.error msg →
      get_transcript_body env = Except.error (Exc.client msg) ∨
      ∃ m, get_transcript_body env = Except.error (Exc.other m) ∧
        msg = "Could not process video: " ++ m) := by
  constructor
  · intro m hm
    constructor
    · unfold get_transcript
      rw [hm]
    · refine ⟨": " ++ m, ?_⟩
      rw [← String.append_assoc]
      rfl
  · intro msg hmsg
    unfold get_transcript at hmsg
    cases hb : get_transcript_body env with
    | ok t => rw [hb] at hmsg; exact absurd hmsg (by simp)
    | error e =>
      rw [hb] at hmsg
      cases e with
      | client m =>
        left
        have hm : m = msg := by simpa using hmsg
        rw [hm]
      | other m =>
        right
        refine ⟨m, rfl, ?_⟩
        have hm : "Could not process video: " ++ m = msg := by simpa using hmsg
        exact hm.symm

/-- Environment in which the very first external step raises a
non-`ValueError` exception. -/
def envBoom : Env :=
  Env.mk (Except.error (Exc.other "boom")) (Except.error "x") (Except.ok ()) none
    (fun _ => Except.error (Exc.other "net"))

theorem get_transcript_outer_boundary_witness :
    get_transcript_body envBoom = Except.error (Exc.other "boom") ∧
    get_transcript envBoom = Except.error ("Could not process video: " ++ "boom") := by
  refine ⟨rfl, ?_⟩
  exact ((get_transcript_outer_boundary envBoom).1 "boom" rfl).1

/-- Claim C3: a payload whose normalization is empty or shorter than 10
characters makes `get_transcript` fail with the exact "empty or too short"
client error, and every successfully returned transcript has stripped
length at least 10. -/
theorem get_transcript_short_rejected (env : Env) :
    (∀ info, env.setup = Except.ok () → env.extract_info = Except.ok info →
      env.tempdir = Except.ok () →
      truthyOpt (acquirePayload env info) = true →
      (clean_transcript ((acquirePayload env info).getD "") = "" ∨
        (pyStripStr (clean_transcript ((acquirePayload env info).getD ""))).length < 10) →
      get_transcript env = Except.error "Retrieved transcript is empty or too short.") ∧
    (∀ t, get_transcript env = Except.ok t → ¬t = "" ∧ 10 ≤ (pyStripStr t).length) := by
  constructor
  · intro info h1 h2 h3 h4 h5
    unfold get_transcript get_transcript_body
    rw [h1, h2, h3]
    simp only [h4, if_true]
    have hcond : (clean_transcript ((acquirePayload env info).getD "") == "" ||
        decide ((pyStripStr (clean_transcript ((acquirePayload env info).getD ""))).length < 10)) = true := by
      rcases h5 with h5 | h5
      · simp [h5]
      · simp [h5]
    simp only [hcond, if_true]
  · intro t ht
    exact get_transcript_body_ok env t (get_transcript_ok_body env t ht)

/-- Environment whose primary download yields a payload that is too short
after normalization. -/
def envShort : Env :=
  Env.mk (Except.ok ()) (Except.ok (Info.mk [] [])) (Except.ok ()) (some "hi!")
    (fun _ => Except.error (Exc.other "net"))

theorem get_transcript_short_rejected_witness :
    truthyOpt (acquirePayload envShort (Info.mk [] [])) = true ∧
    get_transcript envShort = Except.error "Retrieved transcript is empty or too short." := by
  refine ⟨rfl, ?_⟩
  exact (get_transcript_short_rejected envShort).1 (Info.mk [] []) rfl rfl rfl rfl
    (Or.inr (by decide))

/-- Claim C4: with no `en`/`en-US` manual subtitles, a usable `en-GB`
manual track whose fetch succeeds is selected by the direct-fetch
fallback, and the automatic-caption map is never consulted (the result
does not depend on it at all). -/
theorem manual_over_auto (env : Env) (info : Info) (entries : List SubEntry) (u p : String)
    (hdl : truthyOpt env.download_result = false)
    (hen : List.lookup "en" info.subtitles = none)
    (henUS : List.lookup "en-US" info.subtitles = none)
    (henGB : List.lookup "en-GB" info.subtitles = some entries)
    (hurl : findEligibleUrl entries = some u)
    (hfetch : env.fetch u = Except.ok p)
    (hp : ¬p = "") :
    acquirePayload env info = some p ∧
    ∀ autoCaps : List (String × List SubEntry),
      acquirePayload env (Info.mk info.subtitles autoCaps) = some p := by
  have hA : tryLangs env.fetch info.subtitles manualLangs = some p := by
    simp only [manualLangs, tryLangs, hen, henUS, henGB, hurl, hfetch]
    simp [hp]
  have htp : truthyOpt (some p) = true := by simp [truthyOpt, hp]
  constructor
  · simp only [acquirePayload, hdl, Bool.false_eq_true, if_false, hA, htp, if_true]
  · intro autoCaps
    simp only [acquirePayload, hdl, Bool.false_eq_true, if_false, hA, htp, if_true]

/-- Caption maps for the C4 scenario: a usable `en-GB` manual track, no
`en` manual track, and an `en` automatic track. -/
def infoGB : Info :=
  Info.mk [("en-GB", [SubEntry.mk (some "srt") (some "http://gb")])]
    [("en", [SubEntry.mk (some "srt") (some "http://auto")])]

/-- Fetch function for the C4 scenario. -/
def fetchGB : String → Except Exc String :=
  fun u => if u == "http://gb" then Except.ok "GB MANUAL PAYLOAD" else Except.error (Exc.other "net")

/-- Environment for the C4 scenario. -/
def envGB : Env := Env.mk (Except.ok ()) (Except.ok infoGB) (Except.ok ()) none fetchGB

theorem manual_over_auto_witness :
    acquirePayload envGB infoGB = some "GB MANUAL PAYLOAD" ∧
    acquirePayload envGB (Info.mk infoGB.subtitles []) = some "GB MANUAL PAYLOAD" := by
  have h := manual_over_auto envGB infoGB [SubEntry.mk (some "srt") (some "http://gb")]
    "http://gb" "GB MANUAL PAYLOAD" rfl rfl rfl rfl rfl rfl (by decide)
  exact ⟨h.1, h.2 []⟩

/-- Claim C5: when no path produced a payload, `get_transcript` fails with
a client error that lists the language tags of both caption maps when any
exist, and otherwise states that the video has no captions. -/
theorem no_captions_error (env : Env) (info : Info)
    (h1 : env.setup = Except.ok ()) (h2 : env.extract_info = Except.ok info)
    (h3 : env.tempdir = Except.ok ())
    (h4 : truthyOpt (acquirePayload env info) = false) :
    get_transcript env = Except.error
      (if (info.subtitles.map Prod.fst ++ info.automatic_captions.map Prod.fst).isEmpty then
        "No captions available for this video. The video may not have subtitles."
      else
        "No English captions available. Available languages: " ++
          String.intercalate ", " (info.subtitles.map Prod.fst ++ info.automatic_captions.map Prod.fst)) := by
  unfold get_transcript get_transcript_body
  rw [h1, h2, h3]
  simp only [h4, Bool.false_eq_true, if_false]
  cases hA : (info.subtitles.map Prod.fst ++ info.automatic_captions.map Prod.fst).isEmpty <;>
    simp [hA]

/-- Environment whose video has only non-English caption tracks. -/
def infoFrDe : Info := Info.mk [("fr", [])] [("de", [])]

/-- Environment for the C5 scenario. -/
def envFrDe : Env :=
  Env.mk (Except.ok ()) (Except.ok infoFrDe) (Except.ok ()) none
    (fun _ => Except.error (Exc.other "net"))

theorem no_captions_error_witness :
    truthyOpt (acquirePayload envFrDe infoFrDe) = false ∧
    get_transcript envFrDe =
      Except.error "No English captions available. Available languages: fr, de" := by
  refine ⟨rfl, ?_⟩
  have h := no_captions_error envFrDe infoFrDe rfl rfl rfl rfl
  rw [h]
  rfl

/-- Claim C6: a metadata-query failure whose text contains "private video"
(case-insensitively) yields exactly the private-video client error, no
matter what other substrings the text contains. -/
theorem private_video_exact (env : Env) (msg : String)
    (h1 : env.setup = Except.ok ())
    (h2 : env.extract_info = Except.error msg)
    (h3 : containsSub (lowerStr msg) "private video" = true) :
    get_transcript env = Except.error "This video is private and cannot be accessed." := by
  unfold get_transcript get_transcript_body classifyInfoError
  rw [h1, h2]
  simp only [h3, if_true]

/-- Environment for the C6 scenario: the error text contains "Private
video" along with "unavailable" and "blocked". -/
def envPrivate : Env :=
  Env.mk (Except.ok ()) (Except.error "Private video: it is unavailable and blocked")
    (Except.ok ()) none (fun _ => Except.error (Exc.other "net"))

theorem private_video_exact_witness :
    containsSub (lowerStr "Private video: it is unavailable and blocked") "private video" = true ∧
    get_transcript envPrivate = Except.error "This video is private and cannot be accessed." := by
  refine ⟨by decide, ?_⟩
  exact private_video_exact envPrivate "Private video: it is unavailable and blocked" rfl rfl
    (by decide)

/-- Claim C7: transcripts longer than 8000 characters are truncated to
their first 8000 characters plus the fixed marker before submission (so
the submitted length never exceeds 8000 plus the marker length), and
transcripts of at most 8000 characters are submitted unchanged; the
submission `get_summary` makes is exactly `truncateTranscript`. -/
theorem summary_truncation (t : String) :
    (8000 < t.length →
      truncateTranscript t = pyTake t 8000 ++ truncMarker ∧
      (truncateTranscript t).length = 8000 + truncMarker.length) ∧
    (t.length ≤ 8000 → truncateTranscript t = t) ∧
    (truncateTranscript t).length ≤ 8000 + truncMarker.length ∧
    (∀ env : SummaryEnv, get_openai_client env.api_key = Except.ok () →
      get_summary env t =
        match env.api_response (truncateTranscript t) with
        | Except.ok content => Except.ok content
        | Except.error e => Except.error (classifySummaryError e)) := by
  have hlen : ∀ h : 8000 < t.length, (pyTake t 8000 ++ truncMarker).length = 8000 + truncMarker.length := by
    intro h
    have : t.length = t.data.length := rfl
    simp only [String.length_append, pyTake, String.length_mk, List.length_take]
    omega
  refine ⟨?_, ?_, ?_, ?_⟩
  · intro h
    have ht : truncateTranscript t = pyTake t 8000 ++ truncMarker := by
      unfold truncateTranscript
      rw [if_pos h]
    exact ⟨ht, by rw [ht]; exact hlen h⟩
  · intro h
    unfold truncateTranscript
    rw [if_neg (by omega)]
  · by_cases h : 8000 < t.length
    · have ht : truncateTranscript t = pyTake t 8000 ++ truncMarker := by
        unfold truncateTranscript
        rw [if_pos h]
      rw [ht, hlen h]
    · have ht : truncateTranscript t = t := by
        unfold truncateTranscript
        rw [if_neg h]
      rw [ht]
      omega
  · intro env henv
    unfold get_summary
    rw [henv]

/-- A 9000-character transcript. -/
def longTranscript : String := String.mk (List.replicate 9000 'a')

theorem summary_truncation_witness :
    8000 < longTranscript.length ∧
    truncateTranscript longTranscript = pyTake longTranscript 8000 ++ truncMarker ∧
    (truncateTranscript longTranscript).length = 8000 + truncMarker.length := by
  have h : 8000 < longTranscript.length := by
    have h9 : longTranscript.length = 9000 := by
      show (String.mk (List.replicate 9000 'a')).length = 9000
      rw [String.length_mk, List.length_replicate]
    omega
  exact ⟨h, ((summary_truncation longTranscript).1 h).1, ((summary_truncation longTranscript).1 h).2⟩

/-- Claim C9: the placeholder API key behaves exactly like a missing or
empty key: `get_summary` fails with the fixed configuration message and
the chat-completion endpoint is never consulted (the result does not
depend on it). -/
theorem placeholder_key_rejected (resp resp' : String → Except String String) (t : String) :
    get_summary (SummaryEnv.mk (some "your_openai_api_key_here") resp) t =
      Except.error "OpenAI API key not configured. Please set OPENAI_API_KEY environment variable." ∧
    get_summary (SummaryEnv.mk (some "your_openai_api_key_here") resp) t =
      get_summary (SummaryEnv.mk none resp') t ∧
    get_summary (SummaryEnv.mk (some "your_openai_api_key_here") resp) t =
      get_summary (SummaryEnv.mk (some "") resp') t :=
  ⟨rfl, rfl, rfl⟩

/-- Claim C2 (evaluation): on the specification's SRT sample the code does
not produce "Hello world foo"; the greedy sequence-number regex also eats
the final digits-plus-newline of each timestamp line, so the timestamp
regex never fires and the mangled timestamps stay in the output. -/
theorem clean_transcript_srt_eval :
    clean_transcript srtSample =
      "00:00:01,000 --> 00:00:02,Hello world 00:00:02,000 --> 00:00:03,foo" ∧
    ¬clean_transcript srtSample = "Hello world foo" := by
  constructor
  · decide
  · decide

/-! ## Structural lemmas about the normalizer -/

theorem drop_length_takeWhile (p : Char → Bool) (l : List Char) :
    l.drop ((l.takeWhile p).length) = l.dropWhile p := by
  induction l with
  | nil => rfl
  | cons c cs ih =>
    by_cases hc : p c
    · simp only [List.takeWhile_cons, List.dropWhile_cons, hc, if_true, List.length_cons,
        List.drop_succ_cons]
      exact ih
    · simp only [List.takeWhile_cons, List.dropWhile_cons, hc, if_false, Bool.false_eq_true,
        List.length_nil, List.drop_zero]

theorem takeWhile_append_cons_of (p : Char → Bool) (w : List Char) (c : Char) (z : List Char)
    (hw : ∀ a ∈ w, p a = true) (hc : p c = false) :
    (w ++ c :: z).takeWhile p = w := by
  induction w with
  | nil => simp [List.takeWhile_cons, hc]
  | cons a w ih =>
    have ha : p a = true := hw a (by simp)
    simp only [List.cons_append, List.takeWhile_cons, ha, if_true]
    rw [ih (fun b hb => hw b (by simp [hb]))]

theorem dropWhile_head_false (p : Char → Bool) (l : List Char) (x : Char) (xs : List Char)
    (h : l.dropWhile p = x :: xs) : p x = false := by
  induction l with
  | nil => simp at h
  | cons a as ih =>
    rw [List.dropWhile_cons] at h
    split at h
    · exact ih h
    · rename_i ha
      cases h
      simpa using ha

theorem dropWhile_head?_false (p : Char → Bool) (l : List Char) (c : Char)
    (h : (l.dropWhile p).head? = some c) : p c = false := by
  cases hd : l.dropWhile p with
  | nil => rw [hd] at h; simp at h
  | cons x xs =>
    rw [hd] at h
    simp only [List.head?_cons, Option.some.injEq] at h
    exact h ▸ dropWhile_head_false p l x xs hd

theorem dropWhile_eq_self_of_head (p : Char → Bool) (l : List Char)
    (h : ∀ c, l.head? = some c → p c = false) : l.dropWhile p = l := by
  cases l with
  | nil => rfl
  | cons c cs =>
    rw [List.dropWhile_cons, if_neg]
    simp [h c rfl]

theorem getLast?_of_suffix (l₁ l₂ : List Char) (h : l₁ <:+ l₂) (hne : l₁ ≠ []) :
    l₂.getLast? = l₁.getLast? := by
  obtain ⟨w, hw⟩ := h
  rw [← hw, List.getLast?_append]
  cases hl : l₁.getLast? with
  | none =>
    exact absurd (by simpa using hl) hne
  | some x => rfl

theorem mem_of_head?_drop (l : List Char) (k : Nat) (c : Char)
    (h : (l.drop k).head? = some c) : c ∈ l := by
  have h1 : c ∈ l.drop k := by
    cases hd : l.drop k with
    | nil => rw [hd] at h; simp at h
    | cons x xs =>
      rw [hd] at h
      simp only [List.head?_cons, Option.some.injEq] at h
      simp [h]
  exact List.mem_of_mem_drop h1

theorem mem_scanSub (m : List Char → Option Nat) (repl : List Char) :
    ∀ (n : Nat) (l : List Char), l.length ≤ n → ∀ c ∈ scanSub m repl l, c ∈ repl ∨ c ∈ l := by
  intro n
  induction n with
  | zero =>
    intro l hl c hc
    have hnil : l = [] := List.eq_nil_of_length_eq_zero (Nat.le_zero.mp hl)
    subst hnil
    rw [scanSub_nil] at hc
    simp at hc
  | succ n ih =>
    intro l hl c hc
    cases l with
    | nil => rw [scanSub_nil] at hc; simp at hc
    | cons a cs =>
      have hlcs : cs.length ≤ n := by simp only [List.length_cons] at hl; omega
      cases hm : m (a :: cs) with
      | some k =>
        rw [scanSub_cons_some m repl a cs k hm] at hc
        rcases List.mem_append.mp hc with h | h
        · exact Or.inl h
        · have hlen : (cs.drop k).length ≤ n := by
            rw [List.length_drop]; omega
          rcases ih (cs.drop k) hlen c h with h' | h'
          · exact Or.inl h'
          · exact Or.inr (List.mem_cons_of_mem a (List.mem_of_mem_drop h'))
      | none =>
        rw [scanSub_cons_none m repl a cs hm] at hc
        rcases List.mem_cons.mp hc with h | h
        · exact Or.inr (by simp [h])
        · rcases ih cs hlcs c h with h' | h'
          · exact Or.inl h'
          · exact Or.inr (List.mem_cons_of_mem a h')

theorem mem_of_mem_scanSub (m : List Char → Option Nat) (repl l : List Char) (c : Char)
    (hc : c ∈ scanSub m repl l) : c ∈ repl ∨ c ∈ l :=
  mem_scanSub m repl l.length l (le_refl _) c hc

theorem scanSub_eq_self (m : List Char → Option Nat) (repl : List Char) :
    ∀ l : List Char, (∀ l₂, l₂ <:+ l → m l₂ = none) → scanSub m repl l = l := by
  intro l
  induction l with
  | nil => intro _; rfl
  | cons c cs ih =>
    intro h
    rw [scanSub_cons_none m repl c cs (h (c :: cs) (List.suffix_refl _))]
    rw [ih (fun l₂ hl₂ => h l₂ (hl₂.trans (List.suffix_cons c cs)))]

theorem matchSeqNum_some_mem (l : List Char) (n : Nat) (h : matchSeqNum l = some n) :
    '\n' ∈ l := by
  cases l with
  | nil => simp [matchSeqNum] at h
  | cons c cs =>
    simp only [matchSeqNum] at h
    by_cases hd : c.isDigit
    · rw [if_pos hd] at h
      by_cases hh : ((cs.drop ((cs.takeWhile Char.isDigit).length)).head? == some '\n') = true
      · have hh' : (cs.drop ((cs.takeWhile Char.isDigit).length)).head? = some '\n' := by
          simpa using hh
        exact List.mem_cons_of_mem c (mem_of_head?_drop cs _ '\n' hh')
      · rw [if_neg hh] at h
        simp at h
    · rw [if_neg hd] at h
      simp at h

theorem matchClasses_exists_mem :
    ∀ (ps : List (Char → Bool)) (l : List Char), matchClasses ps l = true →
      ∀ p ∈ ps, ∃ c ∈ l, p c = true := by
  intro ps
  induction ps with
  | nil =>
    intro l _ p hp
    simp at hp
  | cons q qs ih =>
    intro l h p hp
    cases l with
    | nil => simp [matchClasses] at h
    | cons c cs =>
      rw [show matchClasses (q :: qs) (c :: cs) = (q c && matchClasses qs cs) from rfl,
        Bool.and_eq_true] at h
      rcases List.mem_cons.mp hp with hp | hp
      · exact ⟨c, by simp, hp ▸ h.1⟩
      · obtain ⟨d, hd, hpd⟩ := ih cs h.2 p hp
        exact ⟨d, List.mem_cons_of_mem c hd, hpd⟩

theorem matchTimestamp_some_mem (l : List Char) (n : Nat)
    (h : matchTimestamp l = some n) : '\n' ∈ l := by
  simp only [matchTimestamp] at h
  split at h
  · rename_i hm
    have hnl : chEq '\n' ∈ tsPat := by simp [tsPat]
    obtain ⟨c, hc, hcnl⟩ := matchClasses_exists_mem tsPat l hm (chEq '\n') hnl
    have hceq : c = '\n' := by simpa [chEq] using hcnl
    exact hceq ▸ hc
  · simp at h

theorem matchNewlines_some_mem (l : List Char) (n : Nat)
    (h : matchNewlines l = some n) : '\n' ∈ l := by
  cases l with
  | nil => simp [matchNewlines] at h
  | cons c cs =>
    simp only [matchNewlines] at h
    split at h
    · rename_i hc
      have hceq : c = '\n' := by simpa using hc
      simp [hceq]
    · simp at h

theorem matchNewlines_cons_ne (c : Char) (cs : List Char) (hc : ¬c = '\n') :
    matchNewlines (c :: cs) = none := by
  simp only [matchNewlines]
  rw [if_neg (by simpa using hc)]

theorem matchNewlines_cons_nl (cs : List Char) :
    matchNewlines ('\n' :: cs) = some ((cs.takeWhile isNl).length) := by
  simp only [matchNewlines]
  rw [if_pos (by simp)]

theorem matchTag_cons_ne (c : Char) (cs : List Char) (hc : ¬c = '<') :
    matchTag (c :: cs) = none := by
  simp only [matchTag]
  rw [if_neg (by simpa using hc)]

theorem matchTag_lt_gt (cs : List Char) : matchTag ('<' :: '>' :: cs) = none := by
  simp only [matchTag]
  rw [if_pos (by simp)]
  have ht : (('>' :: cs).takeWhile notGt) = [] := by
    rw [List.takeWhile_cons, if_neg (by simp [notGt])]
  simp [ht]

theorem matchTag_no_gt (cs : List Char) (h : ¬ '>' ∈ cs) : matchTag ('<' :: cs) = none := by
  simp only [matchTag]
  rw [if_pos (by simp)]
  have htw : cs.takeWhile notGt = cs := by
    refine List.takeWhile_eq_self_iff.mpr (fun a ha => ?_)
    simp only [notGt, Bool.not_eq_true']
    exact beq_eq_false_iff_ne.mpr (fun heq => h (heq ▸ ha))
  by_cases hk : (cs.takeWhile notGt).length = 0
  · simp [hk]
  · rw [if_neg (by simpa using hk)]
    rw [htw] at hk ⊢
    rw [show cs.drop cs.length = [] from List.drop_length cs]
    simp

theorem dropWhile_append_cons_of (p : Char → Bool) (w : List Char) (c : Char) (z : List Char)
    (hw : ∀ a ∈ w, p a = true) (hc : p c = false) :
    (w ++ c :: z).dropWhile p = c :: z := by
  induction w with
  | nil => simp [List.dropWhile_cons, hc]
  | cons a w ih =>
    have ha : p a = true := hw a (by simp)
    simp only [List.cons_append, List.dropWhile_cons, ha, if_true]
    exact ih (fun b hb => hw b (by simp [hb]))

theorem matchTag_append_some (xs v : List Char) (n : Nat)
    (h : matchTag xs = some n) : matchTag (xs ++ v) = some n := by
  cases xs with
  | nil => simp [matchTag] at h
  | cons c cs =>
    simp only [matchTag] at h
    simp only [List.cons_append, matchTag]
    by_cases hc : (c == '<') = true
    case neg => rw [if_neg hc] at h; simp at h
    rw [if_pos hc] at h ⊢
    by_cases hk : ((cs.takeWhile notGt).length == 0) = true
    · rw [if_pos hk] at h; simp at h
    · rw [if_neg hk] at h
      by_cases hh : ((cs.drop ((cs.takeWhile notGt).length)).head? == some '>') = true
      · rw [if_pos hh] at h
        have hd : cs.drop ((cs.takeWhile notGt).length) = cs.dropWhile notGt :=
          drop_length_takeWhile notGt cs
        obtain ⟨rest, hrest⟩ : ∃ rest, cs.dropWhile notGt = '>' :: rest := by
          rw [← hd]
          cases hcd : cs.drop ((cs.takeWhile notGt).length) with
          | nil => rw [hcd] at hh; simp at hh
          | cons x xs' =>
            rw [hcd] at hh
            have hx : x = '>' := by simpa using hh
            exact ⟨xs', by rw [hx]⟩
        have hdecomp : cs = cs.takeWhile notGt ++ '>' :: rest := by
          conv_lhs => rw [← List.takeWhile_append_dropWhile notGt cs]
          rw [hrest]
        have hwall : ∀ a ∈ cs.takeWhile notGt, notGt a = true :=
          fun a ha => List.mem_takeWhile_imp ha
        have htw2 : (cs ++ v).takeWhile notGt = cs.takeWhile notGt := by
          conv_lhs => rw [hdecomp]
          rw [List.append_assoc, List.cons_append]
          exact takeWhile_append_cons_of notGt _ '>' _ hwall (by simp [notGt])
        have hdr2 : (cs ++ v).drop ((cs.takeWhile notGt).length) = '>' :: (rest ++ v) := by
          have h1 : (cs ++ v).drop (((cs ++ v).takeWhile notGt).length) =
              (cs ++ v).dropWhile notGt := drop_length_takeWhile notGt (cs ++ v)
          rw [htw2] at h1
          rw [h1]
          conv_lhs => rw [hdecomp]
          rw [List.append_assoc, List.cons_append]
          exact dropWhile_append_cons_of notGt _ '>' _ hwall (by simp [notGt])
        rw [htw2, if_neg hk, hdr2]
        rw [if_pos (by simp)]
        exact h
      · rw [if_neg hh] at h; simp at h

theorem matchTag_append_none (xs v : List Char) (h : matchTag (xs ++ v) = none) :
    matchTag xs = none := by
  cases hm : matchTag xs with
  | none => rfl
  | some n =>
    rw [matchTag_append_some xs v n hm] at h
    exact absurd h (by simp)

/-- No suffix of `l` starts with a match of `<[^>]+>`. -/
def TagFree (l : List Char) : Prop := ∀ l₂, l₂ <:+ l → matchTag l₂ = none

theorem tagFree_nil : TagFree [] := by
  intro l₂ h
  rw [List.suffix_nil.mp h]
  rfl

theorem tagFree_cons (c : Char) (t : List Char) (h1 : matchTag (c :: t) = none)
    (h2 : TagFree t) : TagFree (c :: t) := by
  intro l₂ hl₂
  rcases List.suffix_cons_iff.mp hl₂ with h | h
  · rw [h]; exact h1
  · exact h2 l₂ h

theorem tagFree_mid (t l' : List Char) (ht : TagFree t) (hinf : l' <:+: t) : TagFree l' := by
  obtain ⟨u, v, huv⟩ := hinf
  intro l₂ hl₂
  obtain ⟨w, hw⟩ := hl₂
  have hsuf : (l₂ ++ v) <:+ t := by
    refine ⟨u ++ w, ?_⟩
    rw [← huv, ← hw]
    simp [List.append_assoc]
  exact matchTag_append_none l₂ v (ht (l₂ ++ v) hsuf)

theorem matchTag_some_of_gt (d : Char) (ds : List Char) (hd : ¬d = '>')
    (hgt : '>' ∈ d :: ds) : ∃ n, matchTag ('<' :: d :: ds) = some n := by
  have hdw : (d :: ds).dropWhile notGt ≠ [] := by
    intro hnil
    have hall := List.dropWhile_eq_nil_iff.mp hnil
    have hgt' := hall '>' hgt
    simp [notGt] at hgt'
  obtain ⟨x, xs, hx⟩ : ∃ x xs, (d :: ds).dropWhile notGt = x :: xs := by
    cases hcd : (d :: ds).dropWhile notGt with
    | nil => exact absurd hcd hdw
    | cons x xs => exact ⟨x, xs, rfl⟩
  have hxgt : x = '>' := by
    have hfalse := dropWhile_head_false notGt (d :: ds) x xs hx
    simpa [notGt] using hfalse
  refine ⟨((d :: ds).takeWhile notGt).length + 1, ?_⟩
  simp only [matchTag]
  rw [if_pos (by simp)]
  have hk : ¬((((d :: ds).takeWhile notGt).length == 0) = true) := by
    rw [List.takeWhile_cons, if_pos (by simp [notGt, hd])]
    simp
  rw [if_neg hk, drop_length_takeWhile, hx]
  rw [if_pos (by simp [hxgt])]

theorem tagFree_scanSub :
    ∀ (n : Nat) (l : List Char), l.length ≤ n → TagFree (scanSub matchTag [] l) := by
  intro n
  induction n with
  | zero =>
    intro l hl
    have hnil : l = [] := List.eq_nil_of_length_eq_zero (Nat.le_zero.mp hl)
    subst hnil
    rw [scanSub_nil]
    exact tagFree_nil
  | succ n ih =>
    intro l hl
    cases l with
    | nil => rw [scanSub_nil]; exact tagFree_nil
    | cons c cs =>
      have hlcs : cs.length ≤ n := by simp only [List.length_cons] at hl; omega
      cases hm : matchTag (c :: cs) with
      | some k =>
        rw [scanSub_cons_some matchTag [] c cs k hm, List.nil_append]
        exact ih (cs.drop k) (le_trans (by rw [List.length_drop]; omega) hlcs)
      | none =>
        rw [scanSub_cons_none matchTag [] c cs hm]
        refine tagFree_cons c _ ?_ (ih cs hlcs)
        by_cases hc : c = '<'
        · subst hc
          cases cs with
          | nil => rw [scanSub_nil]; rfl
          | cons d ds =>
            by_cases hdch : d = '>'
            · subst hdch
              rw [scanSub_cons_none matchTag [] '>' ds (matchTag_cons_ne '>' ds (by decide))]
              exact matchTag_lt_gt _
            · have hng : ¬ '>' ∈ (d :: ds) := by
                intro hgt
                obtain ⟨k, hk⟩ := matchTag_some_of_gt d ds hdch hgt
                rw [hk] at hm
                exact absurd hm (by simp)
              have hng' : ¬ '>' ∈ scanSub matchTag [] (d :: ds) := by
                intro hgt'
                rcases mem_of_mem_scanSub matchTag [] (d :: ds) '>' hgt' with h | h
                · simp at h
                · exact hng h
              exact matchTag_no_gt _ hng'
        · exact matchTag_cons_ne c _ hc

theorem no_nl_scanSub_newlines :
    ∀ (n : Nat) (l : List Char), l.length ≤ n → ¬ '\n' ∈ scanSub matchNewlines [' '] l := by
  intro n
  induction n with
  | zero =>
    intro l hl
    have hnil : l = [] := List.eq_nil_of_length_eq_zero (Nat.le_zero.mp hl)
    subst hnil
    rw [scanSub_nil]
    simp
  | succ n ih =>
    intro l hl
    cases l with
    | nil => rw [scanSub_nil]; simp
    | cons c cs =>
      have hlcs : cs.length ≤ n := by simp only [List.length_cons] at hl; omega
      by_cases hc : c = '\n'
      · subst hc
        rw [scanSub_cons_some matchNewlines [' '] '\n' cs _ (matchNewlines_cons_nl cs)]
        intro hmem
        rcases List.mem_append.mp hmem with h | h
        · simp at h
        · exact ih (cs.drop _) (le_trans (by rw [List.length_drop]; omega) hlcs) h
      · rw [scanSub_cons_none matchNewlines [' '] c cs (matchNewlines_cons_ne c cs hc)]
        intro hmem
        rcases List.mem_cons.mp hmem with h | h
        · exact hc h.symm
        · exact ih cs hlcs h

/-! ## Lemmas about the final strip -/

theorem pyStrip_mid (l : List Char) : pyStrip l <:+: l := by
  unfold pyStrip
  have h1 : l.dropWhile isSpace <:+ l := List.dropWhile_suffix isSpace
  have h2 : (l.dropWhile isSpace).reverse.dropWhile isSpace <:+ (l.dropWhile isSpace).reverse :=
    List.dropWhile_suffix isSpace
  have h3 := List.reverse_prefix.mpr h2
  rw [List.reverse_reverse] at h3
  exact h3.isInfix.trans h1.isInfix

theorem pyStrip_head (l : List Char) (c : Char) (h : (pyStrip l).head? = some c) :
    isSpace c = false := by
  unfold pyStrip at h
  rw [List.head?_reverse] at h
  have hne : ((l.dropWhile isSpace).reverse.dropWhile isSpace) ≠ [] := by
    intro hnil
    rw [hnil] at h
    simp at h
  have heq := getLast?_of_suffix _ _ (List.dropWhile_suffix isSpace) hne
  rw [List.getLast?_reverse] at heq
  exact dropWhile_head?_false isSpace l c (heq.trans h)

theorem pyStrip_last (l : List Char) (c : Char) (h : (pyStrip l).getLast? = some c) :
    isSpace c = false := by
  unfold pyStrip at h
  rw [List.getLast?_reverse] at h
  exact dropWhile_head?_false isSpace _ c h

theorem pyStrip_eq_self (l : List Char)
    (hh : ∀ c, l.head? = some c → isSpace c = false)
    (hl : ∀ c, l.getLast? = some c → isSpace c = false) : pyStrip l = l := by
  unfold pyStrip
  rw [dropWhile_eq_self_of_head isSpace l hh]
  rw [dropWhile_eq_self_of_head isSpace l.reverse
    (fun c hc => hl c (by rwa [List.head?_reverse] at hc))]
  exact List.reverse_reverse l

/-! ## The invariant established by `clean_transcript` -/

theorem cleanList_no_nl (l : List Char) : ¬ '\n' ∈ cleanList l := by
  unfold cleanList
  intro h
  have h1 := (pyStrip_mid _).subset h
  rcases mem_of_mem_scanSub _ _ _ _ h1 with h2 | h2
  · simp at h2
  · exact no_nl_scanSub_newlines _ _ (le_refl _) h2

theorem cleanList_tagFree (l : List Char) : TagFree (cleanList l) := by
  unfold cleanList
  exact tagFree_mid _ _ (tagFree_scanSub _ _ (le_refl _)) (pyStrip_mid _)

theorem cleanList_head (l : List Char) (c : Char) (h : (cleanList l).head? = some c) :
    isSpace c = false := by
  unfold cleanList at h
  exact pyStrip_head _ c h

theorem cleanList_last (l : List Char) (c : Char) (h : (cleanList l).getLast? = some c) :
    isSpace c = false := by
  unfold cleanList at h
  exact pyStrip_last _ c h

theorem cleanList_eq_self (l : List Char)
    (hnl : ¬ '\n' ∈ l) (htf : TagFree l)
    (hh : ∀ c, l.head? = some c → isSpace c = false)
    (hl : ∀ c, l.getLast? = some c → isSpace c = false) : cleanList l = l := by
  unfold cleanList
  have e1 : scanSub matchSeqNum [] l = l :=
    scanSub_eq_self _ _ l (fun l₂ h₂ => by
      cases hm : matchSeqNum l₂ with
      | none => rfl
      | some n => exact absurd (h₂.subset (matchSeqNum_some_mem l₂ n hm)) hnl)
  have e2 : scanSub matchTimestamp [] l = l :=
    scanSub_eq_self _ _ l (fun l₂ h₂ => by
      cases hm : matchTimestamp l₂ with
      | none => rfl
      | some n => exact absurd (h₂.subset (matchTimestamp_some_mem l₂ n hm)) hnl)
  have e3 : scanSub matchNewlines [' '] l = l :=
    scanSub_eq_self _ _ l (fun l₂ h₂ => by
      cases hm : matchNewlines l₂ with
      | none => rfl
      | some n => exact absurd (h₂.subset (matchNewlines_some_mem l₂ n hm)) hnl)
  have e4 : scanSub matchTag [] l = l := scanSub_eq_self _ _ l htf
  rw [e1, e2, e3, e4]
  exact pyStrip_eq_self l hh hl

theorem cleanList_idem (l : List Char) : cleanList (cleanList l) = cleanList l :=
  cleanList_eq_self (cleanList l) (cleanList_no_nl l) (cleanList_tagFree l)
    (cleanList_head l) (cleanList_last l)

/-- Claim C10: for every input, the output of `clean_transcript` contains
no newline character and carries no leading or trailing whitespace. -/
theorem clean_transcript_shape (s : String) :
    (∀ c, c ∈ (clean_transcript s).data → ¬c = '\n') ∧
    (∀ c, (clean_transcript s).data.head? = some c → isSpace c = false) ∧
    (∀ c, (clean_transcript s).data.getLast? = some c → isSpace c = false) := by
  refine ⟨?_, ?_, ?_⟩
  · intro c hc hc'
    subst hc'
    exact cleanList_no_nl s.data hc
  · intro c hc
    exact cleanList_head s.data c hc
  · intro c hc
    exact cleanList_last s.data c hc

/-- Claim C8: `clean_transcript` is idempotent: normalizing an
already-normalized string returns it unchanged. -/
theorem clean_transcript_idem (s : String) :
    clean_transcript (clean_transcript s) = clean_transcript s := by
  show String.mk (cleanList (String.mk (cleanList s.data)).data) = String.mk (cleanList s.data)
  rw [show (String.mk (cleanList s.data)).data = cleanList s.data from rfl]
  rw [cleanList_idem]

theorem clean_transcript_shape_witness :
    (clean_transcript "  a\nb  ").data.head? = some 'a' ∧ isSpace 'a' = false := by
  refine ⟨by decide, ?_⟩
  exact (clean_transcript_shape "  a\nb  ").2.1 'a' (by decide)
